import Mathlib

/-!
Verification of the fallback extraction orchestrator and the round-robin
API-key manager of the genAi_idfc repository.

The embedding translates `src/modules/key_manager.py` and
`src/modules/hybrid_engine.py` into Lean.  Wall-clock time is passed
explicitly as a rational number; the three capability adapters (Vision,
OCR, LocalModel) are external collaborators, so one call's outcome is a
parameter of the orchestrator: it either raised an exception, returned a
falsy value (None or an empty dict), or returned a result record.
-/

namespace GenAiIdfc

/-! ### Key Rotation Manager (src/modules/key_manager.py) -/

/-- State of `RoundRobinKeyManager`: `keys` (fixed pool), `current_index`
(rotation cursor), `key_cooldowns` (dict key → timestamp when it can be used
again, as an association list in insertion order, mirroring a Python dict),
`cooldown_duration` (60 in the source constructor). -/
structure RoundRobinKeyManager where
  keys : List String
  current_index : Nat
  key_cooldowns : List (String × ℚ)
  cooldown_duration : ℚ
deriving Repr, DecidableEq

/-- Python `d[key]` with a `key in d` test folded in, over the cooldown dict:
the value of the first entry for `k`, if any. -/
def lookupCooldown : List (String × ℚ) → String → Option ℚ
  | [], _ => none
  | p :: ps, k => if p.1 = k then some p.2 else lookupCooldown ps k

/-- Python `del d[key]` over the cooldown dict (keys are unique in a dict). -/
def eraseCooldown : List (String × ℚ) → String → List (String × ℚ)
  | [], _ => []
  | p :: ps, k => if p.1 = k then eraseCooldown ps k else p :: eraseCooldown ps k

/-- Python `key in d` over the cooldown dict. -/
def hasKey : List (String × ℚ) → String → Bool
  | [], _ => false
  | p :: ps, k => decide (p.1 = k) || hasKey ps k

/-- Python `d[key] = v` over the cooldown dict: replace in place when the key
is present, append otherwise. -/
def setCooldown (m : List (String × ℚ)) (k : String) (v : ℚ) :
    List (String × ℚ) :=
  if hasKey m k then m.map (fun p => if p.1 = k then (k, v) else p)
  else m ++ [(k, v)]

/-- The `for _ in range(len(self.keys))` loop of `get_key`, fuel-indexed.
Each step reads `keys[current_index]`, advances the cursor modulo the pool
size, skips the key when its cooldown is still in the future, deletes an
expired cooldown entry before returning the key.  On exhaustion the state
after the whole sweep is returned alongside `none`. -/
def getKeyScan (t : ℚ) :
    Nat → RoundRobinKeyManager →
    Option (String × RoundRobinKeyManager) × RoundRobinKeyManager
  | 0, st => (none, st)
  | Nat.succ n, st =>
    let key := st.keys.getD st.current_index ""
    let st1 := { st with current_index := (st.current_index + 1) % st.keys.length }
    match lookupCooldown st1.key_cooldowns key with
    | some ts =>
      if t < ts then getKeyScan t n st1
      else (some (key, { st1 with key_cooldowns := eraseCooldown st1.key_cooldowns key }), st1)
    | none => (some (key, st1), st1)

/-- Python `min` over a list of values (the source applies it to a non-empty
dict; the empty case, which raises in Python, is unreachable under the guard
in `get_key`). -/
def minList (l : List ℚ) : ℚ :=
  match l with
  | [] => 0
  | v :: vs => vs.foldl min v

/-- What one `get_key()` call yields: the key handed out, the state after the
call, and `slept = some d` when the call blocked for `d` seconds (the
all-on-cooldown path with a positive minimum wait). -/
structure GetKeyOutcome where
  key : String
  state : RoundRobinKeyManager
  slept : Option ℚ
deriving Repr, DecidableEq

/-- `RoundRobinKeyManager.get_key` at wall-clock time `t`.  `none` models the
exception Python raises (only reachable with an empty pool: `min` of an empty
dict or `keys[0]` out of range). -/
def get_key (st : RoundRobinKeyManager) (t : ℚ) : Option GetKeyOutcome :=
  if st.keys.isEmpty then none
  else
    match getKeyScan t st.keys.length st with
    | (some (k, st1), _) => some ⟨k, st1, none⟩
    | (none, st1) =>
      let min_wait := minList (st1.key_cooldowns.map (fun p => p.2)) - t
      let slept := if 0 < min_wait then some (min_wait + 1) else none
      some ⟨st1.keys.headD "", { st1 with key_cooldowns := [] }, slept⟩

/-- `RoundRobinKeyManager.mark_rate_limited` at wall-clock time `t`. -/
def mark_rate_limited (st : RoundRobinKeyManager) (key : String) (t : ℚ) :
    RoundRobinKeyManager :=
  { st with key_cooldowns := setCooldown st.key_cooldowns key (t + st.cooldown_duration) }

/-- The `j`-th candidate `get_key`'s sweep examines: the key at offset `j`
from the rotation cursor, wrapping modulo the pool size. -/
def keyAt (st : RoundRobinKeyManager) (j : Nat) : String :=
  st.keys.getD ((st.current_index + j) % st.keys.length) ""

/-- Whether the `j`-th candidate is usable at time `t`: it has no cooldown
entry, or its cooldown timestamp is not in the future. -/
def eligibleAt (st : RoundRobinKeyManager) (t : ℚ) (j : Nat) : Bool :=
  match lookupCooldown st.key_cooldowns (keyAt st j) with
  | none => true
  | some ts => if t < ts then false else true

/-- The cooldown dict after `get_key` returns the `j`-th candidate: an
expired entry of that key is deleted, otherwise the dict is untouched. -/
def cooldownsAfter (st : RoundRobinKeyManager) (t : ℚ) (j : Nat) :
    List (String × ℚ) :=
  match lookupCooldown st.key_cooldowns (keyAt st j) with
  | none => st.key_cooldowns
  | some _ => eraseCooldown st.key_cooldowns (keyAt st j)

/-! ### Capability adapter outcomes

The Vision, OCR and LocalModel engines are external collaborators
(`src/modules/gemini_extractor.py`, `ocr_extractor.py`,
`local_llm_extractor.py`); the orchestrator only sees, per call, whether the
adapter raised (`err`), returned `None` (`null`), or returned a result dict
(`ok`).  For the OCR and LocalModel adapters an empty (falsy) dict behaves
exactly like `None` at every check the engine makes, so `null` covers it;
an empty dict from the Vision adapter is `ok` of an all-default record (the
engine tests `result is None` there, and the dict's absent confidence reads
as 0).  One call's outcome is therefore a parameter of the orchestrator's
embedding. -/

inductive Outcome (α : Type) where
  | err : Outcome α
  | null : Outcome α
  | ok : α → Outcome α
deriving Repr, DecidableEq

/-- Character-level embedding of Python `str.startswith`. -/
def pyStartswith (s pre : String) : Bool := pre.data.isPrefixOf s.data

/-- Python truthiness of a nullable string (`None` and `""` are falsy). -/
def truthyStr : Option String → Bool
  | none => false
  | some s => !(s == "")

/-- Python truthiness of a nullable integer (`None` and `0` are falsy). -/
def truthyInt : Option Int → Bool
  | none => false
  | some n => n != 0

/-- A result dict as returned by the Vision or the OCR adapter and consumed
by `HybridExtractor.extract` through the keys it reads: the four invoice
fields, signature/stamp data, `confidence` (`dict.get('confidence', 0)`:
an absent key behaves as 0, so the default is folded into the field), and
`raw_text` (present only on OCR results; `none` models an absent key). -/
structure RawResult where
  dealer_name : Option String
  model_name : Option String
  horse_power : Option String
  asset_cost : Option Int
  signature_present : Bool
  signature_bbox : Option (List Int)
  stamp_present : Bool
  stamp_bbox : Option (List Int)
  confidence : ℚ
  raw_text : Option String
deriving Repr, DecidableEq

/-- A result dict returned by the LocalModel adapter: the four invoice
fields, each nullable. -/
structure LLMResult where
  dealer_name : Option String
  model_name : Option String
  horse_power : Option String
  asset_cost : Option Int
deriving Repr, DecidableEq

/-! ### Extraction Orchestrator (src/modules/hybrid_engine.py) -/

/-- Availability flags cached by `HybridExtractor.__init__` from each
adapter, plus the module-level `API_KEYS` pool the engine reads
(`src/modules/config.py` sets it to `[]`). -/
structure HybridExtractor where
  gemini_available : Bool
  easyocr_available : Bool
  local_llm_available : Bool
  api_keys : List String
deriving Repr, DecidableEq

/-- The all-null dict built by the HANDLE FAILURE block of
`HybridExtractor.extract` (its `extraction_method` key is never read: the
output uses the local variable instead). -/
def failedRaw : RawResult :=
  { dealer_name := none, model_name := none, horse_power := none,
    asset_cost := none, signature_present := false, signature_bbox := none,
    stamp_present := false, stamp_bbox := none, confidence := 0,
    raw_text := none }

/-- The LLM-merge block of `HybridExtractor.extract` (lines 97-100): each
truthy LocalModel field overwrites the OCR-derived field. -/
def applyLLM (r : RawResult) (l : LLMResult) : RawResult :=
  let r1 := if truthyStr l.dealer_name then { r with dealer_name := l.dealer_name } else r
  let r2 := if truthyStr l.model_name then { r1 with model_name := l.model_name } else r1
  let r3 := if truthyStr l.horse_power then { r2 with horse_power := l.horse_power } else r2
  if truthyInt l.asset_cost then { r3 with asset_cost := l.asset_cost } else r3

/-- The `fields` object of the output contract of `HybridExtractor.extract`:
all four invoice keys are structurally present (nullable), plus the
signature/stamp sub-objects. -/
structure FieldsDict where
  dealer_name : Option String
  model_name : Option String
  horse_power : Option String
  asset_cost : Option Int
  signature_present : Bool
  signature_bbox : Option (List Int)
  stamp_present : Bool
  stamp_bbox : Option (List Int)
deriving Repr, DecidableEq

/-- The record `HybridExtractor.extract` returns (`doc_id` and
`processing_time_sec`, pure I/O-derived metadata, are not modelled). -/
structure ExtractionRecord where
  fields : FieldsDict
  confidence : ℚ
  cost_estimate_usd : ℚ
  extraction_method : String
deriving Repr, DecidableEq

/-- The record of one `extract` call plus, for the fallback-ordering claims,
whether each adapter's `extract` was actually invoked. -/
structure ExtractOutcome where
  record : ExtractionRecord
  vision_called : Bool
  ocr_called : Bool
  llm_called : Bool
deriving Repr, DecidableEq

/-- STRATEGY 1 of `HybridExtractor.extract` (lines 63-75): runs only when
`gemini_available` and some key of `API_KEYS` starts with `"AI"`.  A raised
error or a falsy return leaves `result = None` and the method variable at
`failed`; a truthy result is kept, and tags method `gemini` only when its
confidence is positive. -/
def strategy1 (eng : HybridExtractor) (vision : Outcome RawResult) :
    Option RawResult × String :=
  if eng.gemini_available && eng.api_keys.any (fun k => pyStartswith k "AI") then
    match vision with
    | Outcome.err => (none, "failed")
    | Outcome.null => (none, "failed")
    | Outcome.ok r => (some r, if 0 < r.confidence then "gemini" else "failed")
  else (none, "failed")

/-- STRATEGY 2 of `HybridExtractor.extract` (lines 80-108): runs only when
the result so far is `None` and `easyocr_available`.  A raised error or a
falsy OCR return leaves `result = None` (method variable unchanged); a
truthy OCR result is kept with method `easyocr`; then, when the LocalModel
is available and the OCR result carries truthy `raw_text`, the LLM is
invoked (third component true): a raised LLM error is caught by the block's
`except` which wipes `result` to `None` while the method variable keeps
`easyocr`; a falsy LLM return leaves the OCR result untouched; a truthy LLM
result overwrites each truthy field and sets confidence 0.85 and method
`easyocr+local_llm` unconditionally. -/
def strategy2 (eng : HybridExtractor) (result1 : Option RawResult)
    (method1 : String) (ocr : Outcome RawResult) (llm : Outcome LLMResult) :
    Option RawResult × String × Bool :=
  if result1.isNone && eng.easyocr_available then
    match ocr with
    | Outcome.err => (none, method1, false)
    | Outcome.null => (none, method1, false)
    | Outcome.ok ocrr =>
      if eng.local_llm_available && truthyStr ocrr.raw_text then
        match llm with
        | Outcome.err => (none, "easyocr", true)
        | Outcome.null => (some ocrr, "easyocr", true)
        | Outcome.ok lr =>
          (some { applyLLM ocrr lr with confidence := 0.85 }, "easyocr+local_llm", true)
      else (some ocrr, "easyocr", false)
  else (result1, method1, false)

/-- `HybridExtractor.extract`, given the outcome each adapter call would
produce: Strategy 1, then Strategy 2 on its outcome, then the HANDLE
FAILURE block (a `None` result is replaced by the all-null failure dict
while the method variable is left as is), then the output contract, which
reads the fields and confidence from the result dict and the method from
the variable (`cost_estimate_usd` is the fixed per-call charge exactly when
the method is `gemini`). -/
def extract (eng : HybridExtractor) (vision ocr : Outcome RawResult)
    (llm : Outcome LLMResult) : ExtractOutcome :=
  let vision_called := eng.gemini_available && eng.api_keys.any (fun k => pyStartswith k "AI")
  let s1 := strategy1 eng vision
  let ocr_called := s1.1.isNone && eng.easyocr_available
  let s2 := strategy2 eng s1.1 s1.2 ocr llm
  let final := s2.1.getD failedRaw
  { record :=
      { fields :=
          { dealer_name := final.dealer_name, model_name := final.model_name,
            horse_power := final.horse_power, asset_cost := final.asset_cost,
            signature_present := final.signature_present,
            signature_bbox := final.signature_bbox,
            stamp_present := final.stamp_present,
            stamp_bbox := final.stamp_bbox },
        confidence := final.confidence,
        cost_estimate_usd := if s2.2.1 = "gemini" then 0.0003 else 0,
        extraction_method := s2.2.1 },
    vision_called := vision_called,
    ocr_called := ocr_called,
    llm_called := s2.2.2 }

/-- A plausible Vision result with positive confidence, for concrete
instances. -/
def sampleVision : RawResult :=
  ⟨some "Acme Motors", some "Swaraj 744", some "45", some 700000,
   true, some [10, 20, 110, 60], false, none, 0.9, none⟩

/-- A Vision result whose confidence is 0 (e.g. the upstream JSON carried
`confidence: 0` or lacked the key), for concrete instances. -/
def zeroConfVision : RawResult :=
  ⟨some "Acme Motors", some "Swaraj 744", none, none,
   false, none, false, none, 0, none⟩

/-- A plausible OCR result (the repository's OCR extractor hard-codes
confidence 0.6), for concrete instances. -/
def sampleOcr : RawResult :=
  ⟨some "Acme Tractors", some "Mahindra 575", some "50", some 650000,
   true, some [5, 6, 7, 8], true, some [1, 2, 3, 4], 0.6,
   some "tractor invoice raw text"⟩

/-- An OCR result whose confidence is 0, for concrete instances. -/
def zeroConfOcr : RawResult :=
  ⟨some "Acme Tractors", none, none, none, false, none, false, none, 0, none⟩

/-- A LocalModel result with all four fields null, for concrete instances. -/
def allNullLLM : LLMResult := ⟨none, none, none, none⟩

/-- A LocalModel result overriding two of the four fields, for concrete
instances. -/
def sampleLLM : LLMResult := ⟨some "LLM Dealer", none, some "47", none⟩

/-! ### Batch Coordinator (HybridExtractor.process_batch) -/

/-- How one document behaves when the batch loop reaches it: either the
orchestrator's `extract` runs (with the given adapter outcomes), or it
raises an exception with the given message (the contract-violation case the
coordinator's `except` branch tolerates). -/
inductive DocBehavior where
  | runs : Outcome RawResult → Outcome RawResult → Outcome LLMResult → DocBehavior
  | raises : String → DocBehavior
deriving Repr, DecidableEq

/-- One entry of the batch report's `documents` array.  `fields = none`
models a dict with no `fields` key at all (the synthesized error record);
`error = none` models a dict with no `error` key (a record from `extract`).
`timestamp` and `doc_id` are I/O-derived and not modelled. -/
structure BatchRecord where
  source_file : String
  fields : Option FieldsDict
  confidence : ℚ
  extraction_method : String
  cost_estimate_usd : ℚ
  error : Option String
deriving Repr, DecidableEq

/-- The body of the per-document loop of `HybridExtractor.process_batch`:
on success the record from `extract` plus `source_file`; on an exception the
synthesized error dict `{doc_id, source_file, error, confidence: 0,
extraction_method: 'failed', timestamp}` (it has no `fields` and no
`cost_estimate_usd` key; the absent cost key reads as 0 in the statistics). -/
def recordFor (eng : HybridExtractor) (doc : String × DocBehavior) : BatchRecord :=
  match doc.2 with
  | DocBehavior.runs v o l =>
    let r := (extract eng v o l).record
    { source_file := doc.1, fields := some r.fields, confidence := r.confidence,
      extraction_method := r.extraction_method,
      cost_estimate_usd := r.cost_estimate_usd, error := none }
  | DocBehavior.raises msg =>
    { source_file := doc.1, fields := none, confidence := 0,
      extraction_method := "failed", cost_estimate_usd := 0, error := some msg }

/-- The `batch_info` statistics of `HybridExtractor.process_batch`
(`success_rate`, timing and `processed_at` are I/O-derived and not
modelled). -/
structure BatchInfo where
  total : Nat
  successful : Nat
  failed : Nat
  avg_confidence : ℚ
  total_cost : ℚ
deriving Repr, DecidableEq

/-- `HybridExtractor.process_batch` over an ordered list of documents, each
given with its behavior: the `documents` array plus the `batch_info`
statistics, computed exactly as in the source (`successful` counts records
with positive confidence, `failed = total - successful`, the average divides
by `total = len(image_paths)` and is 0 for an empty batch). -/
def process_batch (eng : HybridExtractor) (docs : List (String × DocBehavior)) :
    List BatchRecord × BatchInfo :=
  let results := docs.map (recordFor eng)
  let total := docs.length
  let successful := (results.filter (fun r => 0 < r.confidence)).length
  let failed := total - successful
  let total_cost := (results.map (fun r => r.cost_estimate_usd)).sum
  let avg_confidence :=
    if 0 < total then (results.map (fun r => r.confidence)).sum / (total : ℚ) else 0
  (results,
   { total := total, successful := successful, failed := failed,
     avg_confidence := avg_confidence, total_cost := total_cost })

end GenAiIdfc

namespace GenAiIdfc

/-! ### Association-list (Python dict) lemmas -/

lemma lookup_map_replace_self (k : String) (v : ℚ) :
    ∀ m : List (String × ℚ), hasKey m k = true →
      lookupCooldown (m.map (fun p => if p.1 = k then (k, v) else p)) k = some v := by
  intro m
  induction m with
  | nil => intro h; simp [hasKey] at h
  | cons a ps ih =>
    intro h
    by_cases hak : a.1 = k
    · simp [lookupCooldown, hak]
    · simp only [hasKey, Bool.or_eq_true, decide_eq_true_eq] at h
      rcases h with h | h
      · exact absurd h hak
      · simp only [List.map_cons, if_neg hak, lookupCooldown, hak, if_false]
        exact ih h

lemma lookup_map_replace_other (k k' : String) (v : ℚ) (hk : k' ≠ k) :
    ∀ m : List (String × ℚ),
      lookupCooldown (m.map (fun p => if p.1 = k then (k, v) else p)) k' =
        lookupCooldown m k' := by
  have hk' : k ≠ k' := Ne.symm hk
  intro m
  induction m with
  | nil => rfl
  | cons a ps ih =>
    by_cases hak : a.1 = k
    · have hak' : a.1 ≠ k' := by rw [hak]; exact hk'
      simp only [List.map_cons, if_pos hak, lookupCooldown, if_neg hk', if_neg hak']
      exact ih
    · simp only [List.map_cons, if_neg hak, lookupCooldown]
      by_cases ha' : a.1 = k'
      · simp [ha']
      · simp only [if_neg ha']
        exact ih

lemma lookup_append_self (k : String) (v : ℚ) :
    ∀ m : List (String × ℚ), hasKey m k = false →
      lookupCooldown (m ++ [(k, v)]) k = some v := by
  intro m
  induction m with
  | nil => intro h; simp [lookupCooldown]
  | cons a ps ih =>
    intro h
    simp only [hasKey, Bool.or_eq_false_iff, decide_eq_false_iff_not] at h
    simp only [List.cons_append, lookupCooldown, if_neg h.1]
    exact ih h.2

lemma lookup_append_other (k k' : String) (v : ℚ) (hk : k' ≠ k) :
    ∀ m : List (String × ℚ),
      lookupCooldown (m ++ [(k, v)]) k' = lookupCooldown m k' := by
  have hk' : k ≠ k' := Ne.symm hk
  intro m
  induction m with
  | nil => simp [lookupCooldown, hk']
  | cons a ps ih =>
    simp only [List.cons_append, lookupCooldown]
    by_cases ha' : a.1 = k'
    · simp [ha']
    · simp only [if_neg ha']
      exact ih

lemma lookup_setCooldown_self (m : List (String × ℚ)) (k : String) (v : ℚ) :
    lookupCooldown (setCooldown m k v) k = some v := by
  unfold setCooldown
  by_cases h : hasKey m k = true
  · rw [if_pos h]
    exact lookup_map_replace_self k v m h
  · rw [if_neg h]
    exact lookup_append_self k v m (Bool.eq_false_iff.mpr h)

lemma lookup_setCooldown_other (m : List (String × ℚ)) (k k' : String) (v : ℚ)
    (hk : k' ≠ k) :
    lookupCooldown (setCooldown m k v) k' = lookupCooldown m k' := by
  unfold setCooldown
  by_cases h : hasKey m k = true
  · rw [if_pos h]
    exact lookup_map_replace_other k k' v hk m
  · rw [if_neg h]
    exact lookup_append_other k k' v hk m

/-- C10: `mark_rate_limited(key)` only writes that key's cooldown entry,
setting it to the call time plus the fixed cooldown duration; the key pool,
the rotation cursor, the cooldown duration and every other key's cooldown
entry are unchanged. -/
theorem mark_rate_limited_frame (st : RoundRobinKeyManager) (key : String)
    (t : ℚ) (k : String) (hk : k ≠ key) :
    (mark_rate_limited st key t).keys = st.keys ∧
    (mark_rate_limited st key t).current_index = st.current_index ∧
    (mark_rate_limited st key t).cooldown_duration = st.cooldown_duration ∧
    lookupCooldown (mark_rate_limited st key t).key_cooldowns key =
      some (t + st.cooldown_duration) ∧
    lookupCooldown (mark_rate_limited st key t).key_cooldowns k =
      lookupCooldown st.key_cooldowns k := by
  refine ⟨rfl, rfl, rfl, ?_, ?_⟩
  · exact lookup_setCooldown_self st.key_cooldowns key (t + st.cooldown_duration)
  · exact lookup_setCooldown_other st.key_cooldowns key k (t + st.cooldown_duration) hk

/-! ### Round-robin sweep lemmas -/

lemma keyAt_shift (st : RoundRobinKeyManager) (j : Nat) :
    keyAt { st with current_index := (st.current_index + 1) % st.keys.length } j =
      keyAt st (j + 1) := by
  unfold keyAt
  have h : ((st.current_index + 1) % st.keys.length + j) % st.keys.length =
      (st.current_index + (j + 1)) % st.keys.length := by
    rw [Nat.mod_add_mod]
    congr 1
    omega
  rw [h]

lemma eligibleAt_shift (st : RoundRobinKeyManager) (t : ℚ) (j : Nat) :
    eligibleAt { st with current_index := (st.current_index + 1) % st.keys.length } t j =
      eligibleAt st t (j + 1) := by
  unfold eligibleAt
  rw [keyAt_shift]

lemma cooldownsAfter_shift (st : RoundRobinKeyManager) (t : ℚ) (j : Nat) :
    cooldownsAfter { st with current_index := (st.current_index + 1) % st.keys.length } t j =
      cooldownsAfter st t (j + 1) := by
  unfold cooldownsAfter
  rw [keyAt_shift]

lemma getKeyScan_all_skip (t : ℚ) :
    ∀ (fuel : Nat) (st : RoundRobinKeyManager),
      st.current_index < st.keys.length →
      (∀ j, j < fuel → eligibleAt st t j = false) →
      getKeyScan t fuel st =
        (none, { st with current_index := (st.current_index + fuel) % st.keys.length }) := by
  intro fuel
  induction fuel with
  | zero =>
    intro st hidx _
    simp only [getKeyScan, Nat.add_zero, Nat.mod_eq_of_lt hidx]
  | succ f ih =>
    intro st hidx hall
    have h0 := hall 0 (Nat.succ_pos f)
    have hkey : st.keys.getD st.current_index "" = keyAt st 0 := by
      unfold keyAt
      rw [Nat.add_zero, Nat.mod_eq_of_lt hidx]
    unfold eligibleAt at h0
    unfold getKeyScan
    rw [hkey]
    rcases hlk : lookupCooldown st.key_cooldowns (keyAt st 0) with _ | ts
    · rw [hlk] at h0; simp at h0
    · rw [hlk] at h0
      have h0' : (if t < ts then false else true) = false := h0
      have hts : t < ts := by
        by_contra hc
        rw [if_neg hc] at h0'
        exact Bool.true_eq_false.mp h0'
      simp only [hlk, if_pos hts]
      have hidx1 : (st.current_index + 1) % st.keys.length < st.keys.length :=
        Nat.mod_lt _ (by omega)
      have hall1 : ∀ j, j < f →
          eligibleAt { st with current_index := (st.current_index + 1) % st.keys.length } t j = false := by
        intro j hj
        rw [eligibleAt_shift]
        exact hall (j + 1) (by omega)
      rw [ih _ hidx1 hall1]
      have hmod : ((st.current_index + 1) % st.keys.length + f) % st.keys.length =
          (st.current_index + (f + 1)) % st.keys.length := by
        rw [Nat.mod_add_mod]
        congr 1
        omega
      simp only [hmod]

lemma getKeyScan_finds (t : ℚ) :
    ∀ (fuel : Nat) (st : RoundRobinKeyManager) (j : Nat),
      st.current_index < st.keys.length →
      j < fuel →
      eligibleAt st t j = true →
      (∀ i, i < j → eligibleAt st t i = false) →
      (getKeyScan t fuel st).1 =
        some (keyAt st j,
          { st with current_index := (st.current_index + j + 1) % st.keys.length,
                    key_cooldowns := cooldownsAfter st t j }) := by
  intro fuel
  induction fuel with
  | zero => intro st j _ hj; omega
  | succ f ih =>
    intro st j hidx hj helig hmin
    have hkey : st.keys.getD st.current_index "" = keyAt st 0 := by
      unfold keyAt
      rw [Nat.add_zero, Nat.mod_eq_of_lt hidx]
    rcases j with _ | j
    · unfold eligibleAt at helig
      unfold getKeyScan
      rw [hkey]
      rcases hlk : lookupCooldown st.key_cooldowns (keyAt st 0) with _ | ts
      · simp only [hlk, cooldownsAfter]
      · rw [hlk] at helig
        have helig' : (if t < ts then false else true) = true := helig
        have hts : ¬ t < ts := by
          by_contra hc
          rw [if_pos hc] at helig'
          exact Bool.false_eq_true.mp helig'
        simp only [hlk, if_neg hts, cooldownsAfter]
    · have h0 := hmin 0 (Nat.succ_pos j)
      unfold eligibleAt at h0
      unfold getKeyScan
      rw [hkey]
      rcases hlk : lookupCooldown st.key_cooldowns (keyAt st 0) with _ | ts
      · rw [hlk] at h0; simp at h0
      · rw [hlk] at h0
        have h0' : (if t < ts then false else true) = false := h0
        have hts : t < ts := by
          by_contra hc
          rw [if_neg hc] at h0'
          exact Bool.true_eq_false.mp h0'
        simp only [hlk, if_pos hts]
        have hidx1 : (st.current_index + 1) % st.keys.length < st.keys.length :=
          Nat.mod_lt _ (by omega)
        have helig1 :
            eligibleAt { st with current_index := (st.current_index + 1) % st.keys.length } t j = true := by
          rw [eligibleAt_shift]; exact helig
        have hmin1 : ∀ i, i < j →
            eligibleAt { st with current_index := (st.current_index + 1) % st.keys.length } t i = false := by
          intro i hi
          rw [eligibleAt_shift]
          exact hmin (i + 1) (by omega)
        rw [ih _ j hidx1 (by omega) helig1 hmin1]
        rw [keyAt_shift, cooldownsAfter_shift]
        have hmod : ((st.current_index + 1) % st.keys.length + j + 1) % st.keys.length =
            (st.current_index + (j + 1) + 1) % st.keys.length := by
          rw [Nat.add_assoc, Nat.mod_add_mod]
          congr 1
          omega
        simp only [hmod]

lemma get_key_first_eligible (st : RoundRobinKeyManager) (t : ℚ) (j : Nat)
    (hidx : st.current_index < st.keys.length) (hj : j < st.keys.length)
    (helig : eligibleAt st t j = true)
    (hmin : ∀ i, i < j → eligibleAt st t i = false) :
    get_key st t =
      some ⟨keyAt st j,
        { st with current_index := (st.current_index + j + 1) % st.keys.length,
                  key_cooldowns := cooldownsAfter st t j }, none⟩ := by
  have hne : st.keys.isEmpty = false := by
    rcases hk : st.keys with _ | _
    · rw [hk] at hj; simp at hj
    · rfl
  have hs := getKeyScan_finds t st.keys.length st j hidx hj helig hmin
  unfold get_key
  rw [hne]
  rcases hsc : getKeyScan t st.keys.length st with ⟨res, stf⟩
  rw [hsc] at hs
  simp only at hs
  rw [hs]
  rfl

/-- C6: with a non-empty pool and at least one key not on cooldown,
`get_key` returns the first key in cursor order whose cooldown is not in the
future, advancing the cursor one step past that candidate (modulo the pool
size) and deleting that key's expired cooldown entry; consequently on pool
A,B,C with no cooldowns four sequential calls return A, B, C, A, and after
`mark_rate_limited(A)` the sweeps skip A while its cooldown is in the
future and hand A out again (removing the expired entry) once the cooldown
has elapsed. -/
theorem get_key_round_robin :
    (∀ (st : RoundRobinKeyManager) (t : ℚ) (j : Nat),
        st.current_index < st.keys.length →
        j < st.keys.length →
        eligibleAt st t j = true →
        (∀ i, i < j → eligibleAt st t i = false) →
        get_key st t =
          some ⟨keyAt st j,
            { st with current_index := (st.current_index + j + 1) % st.keys.length,
                      key_cooldowns := cooldownsAfter st t j }, none⟩) ∧
    get_key ⟨["A", "B", "C"], 0, [], 60⟩ 1000 =
      some ⟨"A", ⟨["A", "B", "C"], 1, [], 60⟩, none⟩ ∧
    get_key ⟨["A", "B", "C"], 1, [], 60⟩ 1000 =
      some ⟨"B", ⟨["A", "B", "C"], 2, [], 60⟩, none⟩ ∧
    get_key ⟨["A", "B", "C"], 2, [], 60⟩ 1000 =
      some ⟨"C", ⟨["A", "B", "C"], 0, [], 60⟩, none⟩ ∧
    get_key ⟨["A", "B", "C"], 0, [], 60⟩ 1000 =
      some ⟨"A", ⟨["A", "B", "C"], 1, [], 60⟩, none⟩ ∧
    mark_rate_limited ⟨["A", "B", "C"], 0, [], 60⟩ "A" 1000 =
      ⟨["A", "B", "C"], 0, [("A", 1060)], 60⟩ ∧
    get_key ⟨["A", "B", "C"], 0, [("A", 1060)], 60⟩ 1030 =
      some ⟨"B", ⟨["A", "B", "C"], 2, [("A", 1060)], 60⟩, none⟩ ∧
    get_key ⟨["A", "B", "C"], 2, [("A", 1060)], 60⟩ 1030 =
      some ⟨"C", ⟨["A", "B", "C"], 0, [("A", 1060)], 60⟩, none⟩ ∧
    get_key ⟨["A", "B", "C"], 0, [("A", 1060)], 60⟩ 1060 =
      some ⟨"A", ⟨["A", "B", "C"], 1, [], 60⟩, none⟩ := by
  refine ⟨get_key_first_eligible, ?_, ?_, ?_, ?_, ?_, ?_, ?_, ?_⟩ <;>
    first
      | decide
      | norm_num [mark_rate_limited, setCooldown, hasKey]

/-- Witness for C6's general clause at a concrete state: pool B1,B2 with
the cursor on B2 and an expired cooldown entry for B2; `get_key` at time
600 returns B2, wraps the cursor and removes the expired entry. -/
theorem get_key_round_robin_witness :
    get_key ⟨["B1", "B2"], 1, [("B2", 500)], 60⟩ 600 =
      some ⟨"B2", ⟨["B1", "B2"], 0, [], 60⟩, none⟩ :=
  Eq.trans
    (get_key_round_robin.1 ⟨["B1", "B2"], 1, [("B2", 500)], 60⟩ 600 0
      (by decide) (by decide) (by decide) (fun i hi => absurd hi (Nat.not_lt_zero i)))
    (by decide)

lemma foldl_min_mem (v : ℚ) (vs : List ℚ) : vs.foldl min v ∈ v :: vs := by
  induction vs generalizing v with
  | nil => simp [List.foldl]
  | cons w ws ih =>
    simp only [List.foldl_cons]
    rcases List.mem_cons.mp (ih (min v w)) with h1 | h1
    · rcases min_choice v w with hm | hm
      · rw [h1, hm]; exact List.mem_cons_self _ _
      · rw [h1, hm]; exact List.mem_cons_of_mem _ (List.mem_cons_self _ _)
    · exact List.mem_cons_of_mem _ (List.mem_cons_of_mem _ h1)

lemma minList_mem (l : List ℚ) (h : l ≠ []) : minList l ∈ l := by
  match l with
  | [] => exact absurd rfl h
  | v :: vs => exact foldl_min_mem v vs

lemma lookup_of_mem_nodup (m : List (String × ℚ)) (p : String × ℚ)
    (hm : p ∈ m) (hnd : (m.map (fun q => q.1)).Nodup) :
    lookupCooldown m p.1 = some p.2 := by
  induction m with
  | nil => exact absurd hm (List.not_mem_nil p)
  | cons a ps ih =>
    simp only [List.map_cons, List.nodup_cons] at hnd
    rcases List.mem_cons.mp hm with h | h
    · rw [h]
      simp [lookupCooldown]
    · have hne : a.1 ≠ p.1 := by
        intro he
        exact hnd.1 (he ▸ List.mem_map.mpr ⟨p, h, rfl⟩)
      simp only [lookupCooldown, if_neg hne]
      exact ih h hnd.2

lemma keyAt_mem (st : RoundRobinKeyManager) (j : Nat)
    (h : st.current_index < st.keys.length) : keyAt st j ∈ st.keys := by
  unfold keyAt
  have hn : 0 < st.keys.length := by omega
  have hlt : (st.current_index + j) % st.keys.length < st.keys.length :=
    Nat.mod_lt _ hn
  rw [List.getD_eq_getElem?_getD, List.getElem?_eq_getElem hlt]
  exact List.getElem_mem hlt

/-- C7: with a non-empty pool whose keys are all on cooldown, `get_key` does
not fail: it blocks for the minimum remaining cooldown plus one second,
clears every cooldown entry, and returns the first key of the pool; and
`get_key` fails exactly when the pool is empty.  The cooldown-dict
hypotheses (unique keys, every entry's key in the pool) hold for every
state the manager itself produces. -/
theorem get_key_all_cooldown_no_raise :
    (∀ (st : RoundRobinKeyManager) (t : ℚ),
        st.current_index < st.keys.length →
        (st.key_cooldowns.map (fun p => p.1)).Nodup →
        (∀ p, p ∈ st.key_cooldowns → p.1 ∈ st.keys) →
        (∀ k, k ∈ st.keys →
          ∃ ts, lookupCooldown st.key_cooldowns k = some ts ∧ t < ts) →
        get_key st t =
          some ⟨st.keys.headD "", { st with key_cooldowns := [] },
            some (minList (st.key_cooldowns.map (fun p => p.2)) - t + 1)⟩) ∧
    (∀ (st : RoundRobinKeyManager) (t : ℚ),
        get_key st t = none ↔ st.keys = []) := by
  constructor
  · intro st t hidx hnd hsub hall
    have hn : 0 < st.keys.length := by omega
    have hineg : ∀ j, j < st.keys.length → eligibleAt st t j = false := by
      intro j _
      rcases hall _ (keyAt_mem st j hidx) with ⟨ts, hlk, hts⟩
      have he : eligibleAt st t j = (if t < ts then false else true) := by
        unfold eligibleAt
        rw [hlk]
      rw [he, if_pos hts]
    have hscan := getKeyScan_all_skip t st.keys.length st hidx hineg
    have hmod : (st.current_index + st.keys.length) % st.keys.length =
        st.current_index := by
      rw [Nat.add_mod_right]
      exact Nat.mod_eq_of_lt hidx
    rw [hmod] at hscan
    have hne : st.keys.isEmpty = false := by
      rcases hk : st.keys with _ | _
      · rw [hk] at hn; simp at hn
      · rfl
    have hcdne : st.key_cooldowns ≠ [] := by
      rcases hkeys : st.keys with _ | ⟨k0, ks⟩
      · rw [hkeys] at hn; simp at hn
      · have hk0 : k0 ∈ st.keys := by
          rw [hkeys]; exact List.mem_cons_self _ _
        rcases hall k0 hk0 with ⟨ts, hlk, _⟩
        intro hempty
        rw [hempty] at hlk
        exact Option.noConfusion hlk
    have hvals : st.key_cooldowns.map (fun p => p.2) ≠ [] := by
      intro hv
      exact hcdne (List.map_eq_nil_iff.mp hv)
    rcases List.mem_map.mp (minList_mem _ hvals) with ⟨p, hpmem, hpv⟩
    rcases hall p.1 (hsub p hpmem) with ⟨ts, hlk, hts⟩
    have hlk2 : lookupCooldown st.key_cooldowns p.1 = some p.2 :=
      lookup_of_mem_nodup st.key_cooldowns p hpmem hnd
    have hts2 : t < p.2 := by
      rw [hlk2] at hlk
      injection hlk with he
      rw [he]
      exact hts
    have hpos : 0 < minList (st.key_cooldowns.map (fun p => p.2)) - t := by
      rw [← hpv]
      exact sub_pos.mpr hts2
    unfold get_key
    rw [hne]
    simp only [Bool.false_eq_true, if_false, hscan]
    rw [if_pos hpos]
  · intro st t
    constructor
    · intro h
      by_cases hk : st.keys.isEmpty = true
      · exact List.isEmpty_iff.mp hk
      · exfalso
        have hk' : st.keys.isEmpty = false := Bool.eq_false_iff.mpr hk
        unfold get_key at h
        rw [hk'] at h
        simp only [Bool.false_eq_true, if_false] at h
        rcases hsc : getKeyScan t st.keys.length st with ⟨res, stf⟩
        rw [hsc] at h
        rcases res with _ | ⟨k1, st1⟩
        · exact Option.noConfusion h
        · exact Option.noConfusion h
    · intro h
      unfold get_key
      have hk : st.keys.isEmpty = true := by rw [h]; rfl
      rw [hk]
      rfl

/-- Witness for C7's all-on-cooldown clause at a concrete state: pool A,B,
both keys on future cooldowns at time 100; `get_key` sleeps the minimum
remaining wait (50) plus one second, clears the dict and returns A. -/
theorem get_key_all_cooldown_no_raise_witness :
    get_key ⟨["A", "B"], 0, [("A", 200), ("B", 150)], 60⟩ 100 =
      some ⟨"A", ⟨["A", "B"], 0, [], 60⟩, some 51⟩ :=
  Eq.trans
    (get_key_all_cooldown_no_raise.1 ⟨["A", "B"], 0, [("A", 200), ("B", 150)], 60⟩ 100
      (by decide) (by decide) (by decide)
      (by
        intro k hk
        fin_cases hk
        · exact ⟨200, by decide, by norm_num⟩
        · exact ⟨150, by decide, by norm_num⟩))
    (by norm_num [minList, min_def])

/-- Witness for C10 at a concrete state: marking key B of pool A,B at time
100 with duration 60 leaves A's entry and the rest of the state intact. -/
theorem mark_rate_limited_frame_witness :
    (mark_rate_limited ⟨["A", "B"], 1, [("A", 30)], 60⟩ "B" 100).keys = ["A", "B"] ∧
    (mark_rate_limited ⟨["A", "B"], 1, [("A", 30)], 60⟩ "B" 100).current_index = 1 ∧
    (mark_rate_limited ⟨["A", "B"], 1, [("A", 30)], 60⟩ "B" 100).cooldown_duration = 60 ∧
    lookupCooldown (mark_rate_limited ⟨["A", "B"], 1, [("A", 30)], 60⟩ "B" 100).key_cooldowns "B" =
      some (100 + 60) ∧
    lookupCooldown (mark_rate_limited ⟨["A", "B"], 1, [("A", 30)], 60⟩ "B" 100).key_cooldowns "A" =
      lookupCooldown [("A", 30)] "A" :=
  mark_rate_limited_frame ⟨["A", "B"], 1, [("A", 30)], 60⟩ "B" 100 "A" (by decide)

/-! ### Orchestrator lemmas and claims -/

lemma strategy1_cases (eng : HybridExtractor) (v : Outcome RawResult) :
    strategy1 eng v = (none, "failed") ∨
    ∃ r, v = Outcome.ok r ∧
      strategy1 eng v = (some r, if 0 < r.confidence then "gemini" else "failed") := by
  unfold strategy1
  cases hb : (eng.gemini_available && eng.api_keys.any (fun k => pyStartswith k "AI")) with
  | false => left; simp
  | true =>
    rcases v with _ | _ | r
    · left; simp
    · left; simp
    · right; exact ⟨r, rfl, by simp⟩

lemma strategy2_some (eng : HybridExtractor) (r : RawResult) (m : String)
    (o : Outcome RawResult) (l : Outcome LLMResult) :
    strategy2 eng (some r) m o l = (some r, m, false) := by
  simp [strategy2]

lemma applyLLM_spec (r : RawResult) (lr : LLMResult) :
    applyLLM r lr =
      { r with
          dealer_name := if truthyStr lr.dealer_name then lr.dealer_name else r.dealer_name,
          model_name := if truthyStr lr.model_name then lr.model_name else r.model_name,
          horse_power := if truthyStr lr.horse_power then lr.horse_power else r.horse_power,
          asset_cost := if truthyInt lr.asset_cost then lr.asset_cost else r.asset_cost } := by
  unfold applyLLM
  split_ifs <;> rfl

/-- C1 counterexample: in the shipped configuration (`API_KEYS = []`), the
Vision adapter reports itself usable yet its `extract` is never invoked —
the credential pool's contents are an additional precondition. -/
theorem vision_gating_counterexample :
    (⟨true, true, false, []⟩ : HybridExtractor).gemini_available = true ∧
    (extract ⟨true, true, false, []⟩ (Outcome.ok sampleVision) Outcome.null
        Outcome.null).vision_called = false ∧
    (extract ⟨true, true, false, []⟩ (Outcome.ok sampleVision) Outcome.null
        Outcome.null).record.extraction_method ≠ "gemini" := by
  refine ⟨rfl, rfl, ?_⟩
  decide

/-- C1 (amended): the Vision adapter's extract is invoked if and only if
the adapter is usable AND at least one key of the credential pool starts
with "AI"; when it is invoked and succeeds (confidence positive), the
method is `gemini` and no fallback strategy runs. -/
theorem vision_gating (eng : HybridExtractor) (v o : Outcome RawResult)
    (l : Outcome LLMResult) (r : RawResult) :
    ((extract eng v o l).vision_called =
      (eng.gemini_available && eng.api_keys.any (fun k => pyStartswith k "AI"))) ∧
    (v = Outcome.ok r → 0 < r.confidence →
      (extract eng v o l).vision_called = true →
      (extract eng v o l).record.extraction_method = "gemini" ∧
      (extract eng v o l).ocr_called = false) := by
  refine ⟨rfl, ?_⟩
  intro hv hc hcall
  subst hv
  have hcall' :
      (eng.gemini_available && eng.api_keys.any (fun k => pyStartswith k "AI")) = true := hcall
  have hs1 : strategy1 eng (Outcome.ok r) = (some r, "gemini") := by
    simp [strategy1, hcall', hc]
  constructor
  · simp only [extract, hs1]
    rw [strategy2_some]
  · simp only [extract, hs1]
    simp

/-- Witness for C1's success clause: with a usable adapter and a pool
holding a key that starts with "AI", a confident vision result yields
method `gemini` and no OCR call. -/
theorem vision_gating_witness :
    (extract ⟨true, true, false, ["AIkey"]⟩ (Outcome.ok sampleVision) Outcome.null
        Outcome.null).record.extraction_method = "gemini" ∧
    (extract ⟨true, true, false, ["AIkey"]⟩ (Outcome.ok sampleVision) Outcome.null
        Outcome.null).ocr_called = false :=
  (vision_gating ⟨true, true, false, ["AIkey"]⟩ (Outcome.ok sampleVision)
      Outcome.null Outcome.null sampleVision).2 rfl
    (by norm_num [sampleVision]) (by decide)

/-- C2 (code-bug evidence): a non-null Vision result with confidence 0 is
kept as the current result, so the usable OCR adapter is never invoked;
the record is emitted with method `failed` while carrying the Vision
result's fields — contradicting the engine's own promise of automatic
failover to EasyOCR when Gemini does not succeed. -/
theorem vision_zero_conf_skips_fallback :
    (⟨true, true, true, ["AIkey"]⟩ : HybridExtractor).easyocr_available = true ∧
    (extract ⟨true, true, true, ["AIkey"]⟩ (Outcome.ok zeroConfVision)
        (Outcome.ok sampleOcr) Outcome.null).ocr_called = false ∧
    (extract ⟨true, true, true, ["AIkey"]⟩ (Outcome.ok zeroConfVision)
        (Outcome.ok sampleOcr) Outcome.null).record.extraction_method = "failed" ∧
    (extract ⟨true, true, true, ["AIkey"]⟩ (Outcome.ok zeroConfVision)
        (Outcome.ok sampleOcr) Outcome.null).record.fields.dealer_name =
      zeroConfVision.dealer_name := by
  refine ⟨rfl, ?_, ?_, ?_⟩ <;> decide

/-- C3 counterexample: an OCR result with confidence 0 is accepted as the
current best, so the emitted record has confidence 0 with method `easyocr`,
not `failed` — refuting the claimed equivalence. -/
theorem conf_zero_method_counterexample :
    (extract ⟨false, true, false, []⟩ Outcome.null (Outcome.ok zeroConfOcr)
        Outcome.null).record.confidence = 0 ∧
    (extract ⟨false, true, false, []⟩ Outcome.null (Outcome.ok zeroConfOcr)
        Outcome.null).record.extraction_method = "easyocr" := by
  refine ⟨?_, ?_⟩ <;>
    norm_num +decide [extract, strategy1, strategy2, zeroConfOcr, truthyStr, failedRaw]

/-- C3 (amended): provided any non-null Vision result has nonnegative
confidence, any non-null OCR result has positive confidence, and the
LocalModel call does not raise, the emitted record's confidence is 0 if
and only if its method is `failed`. -/
theorem confidence_zero_iff_failed (eng : HybridExtractor) (v o : Outcome RawResult)
    (l : Outcome LLMResult)
    (hv : ∀ r, v = Outcome.ok r → 0 ≤ r.confidence)
    (ho : ∀ r, o = Outcome.ok r → 0 < r.confidence)
    (hl : l ≠ Outcome.err) :
    ((extract eng v o l).record.confidence = 0 ↔
      (extract eng v o l).record.extraction_method = "failed") := by
  rcases strategy1_cases eng v with h1 | ⟨r, hvr, h1⟩
  · simp only [extract, h1]
    cases he : eng.easyocr_available with
    | false => simp +decide [strategy2, he, failedRaw]
    | true =>
      rcases o with _ | _ | ro
      · simp +decide [strategy2, he, failedRaw]
      · simp +decide [strategy2, he, failedRaw]
      · have hc := ho ro rfl
        cases hllm : (eng.local_llm_available && truthyStr ro.raw_text) with
        | false => simp +decide [strategy2, he, hllm, hc.ne']
        | true =>
          rcases l with _ | _ | lr
          · exact absurd rfl hl
          · simp +decide [strategy2, he, hllm, hc.ne']
          · norm_num +decide [strategy2, he, hllm]
  · simp only [extract, h1]
    rw [strategy2_some]
    by_cases hc : 0 < r.confidence
    · rw [if_pos hc]
      simp +decide [hc.ne']
    · rw [if_neg hc]
      have h0 : r.confidence = 0 := le_antisymm (not_lt.mp hc) (hv r hvr)
      simp [h0]

/-- Witness for C3 at a concrete input: vision skipped, OCR succeeding with
confidence 0.6, no LocalModel. -/
theorem confidence_zero_iff_failed_witness :
    ((extract ⟨false, true, false, []⟩ Outcome.null (Outcome.ok sampleOcr)
        Outcome.null).record.confidence = 0 ↔
      (extract ⟨false, true, false, []⟩ Outcome.null (Outcome.ok sampleOcr)
        Outcome.null).record.extraction_method = "failed") :=
  confidence_zero_iff_failed ⟨false, true, false, []⟩ Outcome.null
    (Outcome.ok sampleOcr) Outcome.null
    (fun r h => Outcome.noConfusion h)
    (fun r h => by
      injection h with h2
      rw [← h2]
      norm_num [sampleOcr])
    (fun h => Outcome.noConfusion h)

/-- C4 counterexample: the LocalModel returns a result with all four fields
null; the code still retags the record `easyocr+local_llm` with confidence
0.85 (the retagging is not conditioned on an actual override), with the OCR
fields unmodified — the claim expected method `easyocr` in this case. -/
theorem llm_allnull_retag_counterexample :
    (extract ⟨false, true, true, []⟩ Outcome.null (Outcome.ok sampleOcr)
        (Outcome.ok allNullLLM)).record.extraction_method = "easyocr+local_llm" ∧
    (extract ⟨false, true, true, []⟩ Outcome.null (Outcome.ok sampleOcr)
        (Outcome.ok allNullLLM)).record.confidence = 0.85 ∧
    (extract ⟨false, true, true, []⟩ Outcome.null (Outcome.ok sampleOcr)
        (Outcome.ok allNullLLM)).record.fields =
      ⟨some "Acme Tractors", some "Mahindra 575", some "50", some 650000,
       true, some [5, 6, 7, 8], true, some [1, 2, 3, 4]⟩ := by
  refine ⟨?_, ?_, ?_⟩ <;>
    norm_num +decide [extract, strategy1, strategy2, applyLLM, truthyStr,
      truthyInt, sampleOcr, allNullLLM]

/-- C4 (amended): when OCR succeeded and the enrichment sub-step is reached,
each truthy LocalModel field overwrites the OCR field and each falsy one
retains the OCR value, but the method becomes `easyocr+local_llm` with
confidence exactly 0.85 whenever the LocalModel returns a result — even
with zero overrides; if the LocalModel is not invoked (unavailable or no
raw text) or returns null, the method is `easyocr` with the OCR output
unmodified; if the LocalModel raises, the method is still `easyocr` but the
record's fields are wiped to all-null with confidence 0. -/
theorem llm_enrichment_merge (eng : HybridExtractor) (v o : Outcome RawResult)
    (l : Outcome LLMResult) (r : RawResult)
    (ho : o = Outcome.ok r)
    (hoc : (extract eng v o l).ocr_called = true) :
    ((eng.local_llm_available && truthyStr r.raw_text) = false →
      (extract eng v o l).record.extraction_method = "easyocr" ∧
      (extract eng v o l).record.confidence = r.confidence ∧
      (extract eng v o l).record.fields =
        ⟨r.dealer_name, r.model_name, r.horse_power, r.asset_cost,
         r.signature_present, r.signature_bbox, r.stamp_present, r.stamp_bbox⟩) ∧
    ((eng.local_llm_available && truthyStr r.raw_text) = true →
      (∀ lr, l = Outcome.ok lr →
        (extract eng v o l).record.extraction_method = "easyocr+local_llm" ∧
        (extract eng v o l).record.confidence = 0.85 ∧
        (extract eng v o l).record.fields =
          ⟨if truthyStr lr.dealer_name then lr.dealer_name else r.dealer_name,
           if truthyStr lr.model_name then lr.model_name else r.model_name,
           if truthyStr lr.horse_power then lr.horse_power else r.horse_power,
           if truthyInt lr.asset_cost then lr.asset_cost else r.asset_cost,
           r.signature_present, r.signature_bbox, r.stamp_present, r.stamp_bbox⟩) ∧
      (l = Outcome.null →
        (extract eng v o l).record.extraction_method = "easyocr" ∧
        (extract eng v o l).record.confidence = r.confidence ∧
        (extract eng v o l).record.fields =
          ⟨r.dealer_name, r.model_name, r.horse_power, r.asset_cost,
           r.signature_present, r.signature_bbox, r.stamp_present, r.stamp_bbox⟩) ∧
      (l = Outcome.err →
        (extract eng v o l).record.extraction_method = "easyocr" ∧
        (extract eng v o l).record.confidence = 0 ∧
        (extract eng v o l).record.fields =
          ⟨none, none, none, none, false, none, false, none⟩)) := by
  have hoc' : ((strategy1 eng v).1.isNone && eng.easyocr_available) = true := hoc
  rw [Bool.and_eq_true] at hoc'
  rcases hoc' with ⟨hn, he⟩
  have hnone : (strategy1 eng v).1 = none := Option.isNone_iff_eq_none.mp hn
  subst ho
  constructor
  · intro hcond
    simp only [extract, hnone]
    refine ⟨?_, ?_, ?_⟩ <;> simp [strategy2, he, hcond]
  · intro hcond
    refine ⟨?_, ?_, ?_⟩
    · intro lr hlr
      subst hlr
      simp only [extract, hnone]
      refine ⟨?_, ?_, ?_⟩ <;>
        simp [strategy2, he, hcond, failedRaw, applyLLM_spec]
    · intro hlnull
      subst hlnull
      simp only [extract, hnone]
      refine ⟨?_, ?_, ?_⟩ <;> simp [strategy2, he, hcond]
    · intro hlerr
      subst hlerr
      simp only [extract, hnone]
      refine ⟨?_, ?_, ?_⟩ <;> simp [strategy2, he, hcond, failedRaw]

/-- Witness for C4's override clause at a concrete input: the LocalModel
overrides dealer name and horse power; method and confidence are retagged,
the other fields keep OCR's values. -/
theorem llm_enrichment_merge_witness :
    (extract ⟨false, true, true, []⟩ Outcome.null (Outcome.ok sampleOcr)
        (Outcome.ok sampleLLM)).record.extraction_method = "easyocr+local_llm" ∧
    (extract ⟨false, true, true, []⟩ Outcome.null (Outcome.ok sampleOcr)
        (Outcome.ok sampleLLM)).record.confidence = 0.85 ∧
    (extract ⟨false, true, true, []⟩ Outcome.null (Outcome.ok sampleOcr)
        (Outcome.ok sampleLLM)).record.fields =
      ⟨if truthyStr sampleLLM.dealer_name then sampleLLM.dealer_name else sampleOcr.dealer_name,
       if truthyStr sampleLLM.model_name then sampleLLM.model_name else sampleOcr.model_name,
       if truthyStr sampleLLM.horse_power then sampleLLM.horse_power else sampleOcr.horse_power,
       if truthyInt sampleLLM.asset_cost then sampleLLM.asset_cost else sampleOcr.asset_cost,
       sampleOcr.signature_present, sampleOcr.signature_bbox,
       sampleOcr.stamp_present, sampleOcr.stamp_bbox⟩ := by
  have h := llm_enrichment_merge ⟨false, true, true, []⟩ Outcome.null
    (Outcome.ok sampleOcr) (Outcome.ok sampleLLM) sampleOcr rfl (by decide)
  exact (h.2 (by decide)).1 sampleLLM rfl

/-- C5 counterexample: when the orchestrator raises, the batch coordinator's
synthesized record has no `fields` object at all, refuting the claim that
every produced record carries the four field keys. -/
theorem error_record_no_fields_counterexample :
    (process_batch ⟨false, false, false, []⟩
        [("doc1.png", DocBehavior.raises "boom")]).1 =
      [⟨"doc1.png", none, 0, "failed", 0, some "boom"⟩] := by
  decide

/-- C5 (amended): exactly one record is produced per input document; every
record produced through the orchestrator's `extract` carries the fields
object with all four invoice keys structurally present; the record the
coordinator synthesizes on an orchestrator exception carries no fields
object. -/
theorem batch_fields_presence (eng : HybridExtractor)
    (docs : List (String × DocBehavior)) :
    (process_batch eng docs).1.length = docs.length ∧
    (∀ (path : String) (v o : Outcome RawResult) (l : Outcome LLMResult),
      (recordFor eng (path, DocBehavior.runs v o l)).fields =
        some (extract eng v o l).record.fields) ∧
    (∀ (path msg : String),
      (recordFor eng (path, DocBehavior.raises msg)).fields = none) := by
  exact ⟨by simp [process_batch], fun path v o l => rfl, fun path msg => rfl⟩

/-- C8: if document k raises inside the orchestrator, the batch still
yields one record per document in input order; record k has method
`failed`, confidence 0 and a non-null error message; and every record is a
function of its own document alone (`recordFor`), so the other documents'
records are what any batch would produce for them. -/
theorem process_batch_isolation (eng : HybridExtractor)
    (docs : List (String × DocBehavior)) (k : Nat) (path msg : String)
    (hk : docs[k]? = some (path, DocBehavior.raises msg)) :
    (process_batch eng docs).1.length = docs.length ∧
    (process_batch eng docs).1[k]? =
      some ⟨path, none, 0, "failed", 0, some msg⟩ ∧
    (∀ i : Nat, (process_batch eng docs).1[i]? = docs[i]?.map (recordFor eng)) := by
  refine ⟨by simp [process_batch], ?_,
    fun i => by simp only [process_batch]; rw [List.getElem?_map]⟩
  simp only [process_batch]
  rw [List.getElem?_map, hk]
  rfl

/-- Witness for C8 at a concrete two-document batch whose second document
raises. -/
theorem process_batch_isolation_witness :
    (process_batch ⟨false, false, false, []⟩
        [("a.png", DocBehavior.runs Outcome.null Outcome.null Outcome.null),
         ("b.png", DocBehavior.raises "boom")]).1.length = 2 ∧
    (process_batch ⟨false, false, false, []⟩
        [("a.png", DocBehavior.runs Outcome.null Outcome.null Outcome.null),
         ("b.png", DocBehavior.raises "boom")]).1[1]? =
      some ⟨"b.png", none, 0, "failed", 0, some "boom"⟩ := by
  have h := process_batch_isolation ⟨false, false, false, []⟩
    [("a.png", DocBehavior.runs Outcome.null Outcome.null Outcome.null),
     ("b.png", DocBehavior.raises "boom")] 1 "b.png" "boom" (by decide)
  exact ⟨h.1, h.2.1⟩

/-- C9: in every batch report, successful + failed = total (successful
counting records with positive confidence), the report has one record per
document, the average confidence is the arithmetic mean over the records
for a non-empty batch, and 0 for an empty batch (no division occurs). -/
theorem batch_stats_correct (eng : HybridExtractor)
    (docs : List (String × DocBehavior)) :
    (process_batch eng docs).2.successful + (process_batch eng docs).2.failed =
      (process_batch eng docs).2.total ∧
    (process_batch eng docs).2.total = (process_batch eng docs).1.length ∧
    (docs ≠ [] →
      (process_batch eng docs).2.avg_confidence =
        ((process_batch eng docs).1.map (fun r => r.confidence)).sum /
          ((process_batch eng docs).1.length : ℚ)) ∧
    (docs = [] → (process_batch eng docs).2.avg_confidence = 0) := by
  have hle : ((docs.map (recordFor eng)).filter (fun r => 0 < r.confidence)).length ≤
      docs.length := by
    calc ((docs.map (recordFor eng)).filter (fun r => 0 < r.confidence)).length
        ≤ (docs.map (recordFor eng)).length := List.length_filter_le _ _
      _ = docs.length := List.length_map _ _
  refine ⟨?_, by simp [process_batch], ?_, ?_⟩
  · simp only [process_batch]
    omega
  · intro h
    have hpos : 0 < docs.length := List.length_pos.mpr h
    simp only [process_batch]
    rw [if_pos hpos, List.length_map]
  · intro h
    subst h
    simp [process_batch]

/-- Witness for C9 at a concrete two-document batch (one document raising),
with hypotheses discharged at that input. -/
theorem batch_stats_correct_witness :
    (process_batch ⟨false, false, false, []⟩
        [("a.png", DocBehavior.runs Outcome.null Outcome.null Outcome.null),
         ("b.png", DocBehavior.raises "x")]).2.successful +
      (process_batch ⟨false, false, false, []⟩
        [("a.png", DocBehavior.runs Outcome.null Outcome.null Outcome.null),
         ("b.png", DocBehavior.raises "x")]).2.failed =
      (process_batch ⟨false, false, false, []⟩
        [("a.png", DocBehavior.runs Outcome.null Outcome.null Outcome.null),
         ("b.png", DocBehavior.raises "x")]).2.total ∧
    (process_batch ⟨false, false, false, []⟩
        [("a.png", DocBehavior.runs Outcome.null Outcome.null Outcome.null),
         ("b.png", DocBehavior.raises "x")]).2.avg_confidence =
      ((process_batch ⟨false, false, false, []⟩
        [("a.png", DocBehavior.runs Outcome.null Outcome.null Outcome.null),
         ("b.png", DocBehavior.raises "x")]).1.map (fun r => r.confidence)).sum /
        ((process_batch ⟨false, false, false, []⟩
        [("a.png", DocBehavior.runs Outcome.null Outcome.null Outcome.null),
         ("b.png", DocBehavior.raises "x")]).1.length : ℚ) := by
  have h := batch_stats_correct ⟨false, false, false, []⟩
    [("a.png", DocBehavior.runs Outcome.null Outcome.null Outcome.null),
     ("b.png", DocBehavior.raises "x")]
  exact ⟨h.1, h.2.2.1 (by decide)⟩

end GenAiIdfc
